/-
Verification of the Axon SQL console subsystem: the approval gate, execution
history/cache and statement extraction implemented by
frontend/src/hooks/useSqlConsole.ts, the normalizer in
frontend/src/utils/sqlUtils.ts, and the approval-panel wiring in
frontend/src/components/Canvas.tsx.

The TypeScript code is shallowly embedded: the React useState cells of the
useSqlConsole hook become the fields of ConsoleState; every callback of the
hook becomes a pure function from a state (plus a backend oracle standing for
the remote SQL execution service runSqlQuery, and explicit clock strings
standing for Date.now and toISOString) to a new state together with the
observable effects of the call: the list of calls made to the execution
collaborator and the list of messages passed to onRevealMessage.

JavaScript strings are embedded as Lean String / List Char.  Case folding
(String.prototype.toLowerCase) is modelled on the basic latin letters A-Z, and
the whitespace class of trim and the regexp class \s by the six ASCII
whitespace characters; this covers the alphabet the SQL console manipulates.
-/
import Mathlib

namespace Axon

/-- The JavaScript whitespace class (regexp class of `trim` and the `s` class),
restricted to ASCII: space, tab, newline, carriage return, vertical tab, form feed. -/
def isWsChar (c : Char) : Bool :=
  c == ' ' || c == '\t' || c == '\n' || c == '\r' || c == '\x0b' || c == '\x0c'

/-- JavaScript `String.prototype.toLowerCase`, modelled on the basic latin letters. -/
def toLowerChar (c : Char) : Char :=
  match c with
  | 'A' => 'a' | 'B' => 'b' | 'C' => 'c' | 'D' => 'd' | 'E' => 'e'
  | 'F' => 'f' | 'G' => 'g' | 'H' => 'h' | 'I' => 'i' | 'J' => 'j'
  | 'K' => 'k' | 'L' => 'l' | 'M' => 'm' | 'N' => 'n' | 'O' => 'o'
  | 'P' => 'p' | 'Q' => 'q' | 'R' => 'r' | 'S' => 's' | 'T' => 't'
  | 'U' => 'u' | 'V' => 'v' | 'W' => 'w' | 'X' => 'x' | 'Y' => 'y'
  | 'Z' => 'z'
  | c => c

/-- Drop trailing JavaScript whitespace (the right half of `trim`). -/
def dropTrailWs (l : List Char) : List Char :=
  (l.reverse.dropWhile isWsChar).reverse

/-- JavaScript `String.prototype.trim`. -/
def trimChars (l : List Char) : List Char :=
  dropTrailWs (l.dropWhile isWsChar)

/-- JavaScript `String.prototype.split` at newline characters. -/
def splitLines : List Char → List (List Char)
  | [] => [[]]
  | c :: cs =>
    if c == '\n' then [] :: splitLines cs
    else
      match splitLines cs with
      | [] => [[c]]
      | l :: ls => (c :: l) :: ls

/-- JavaScript `Array.prototype.join` with a newline separator. -/
def joinLines : List (List Char) → List Char
  | [] => []
  | [l] => l
  | l :: ls => l ++ '\n' :: joinLines ls

/-- JavaScript `String.prototype.replace` of every maximal whitespace run by a
single space (the global whitespace-run regexp in `normalizeSql`). -/
def collapseWs : List Char → List Char
  | [] => []
  | [c] => if isWsChar c then [' '] else [c]
  | c :: d :: cs =>
    if isWsChar c then
      if isWsChar d then collapseWs (d :: cs)
      else ' ' :: collapseWs (d :: cs)
    else c :: collapseWs (d :: cs)

/-- Proof-side helper: the maximal non-whitespace runs of a string; `acc` holds
the reversed partial word currently being read. -/
def wsWordsAux : List Char → List Char → List (List Char)
  | acc, [] => if acc.isEmpty then [] else [acc.reverse]
  | acc, c :: cs =>
    if isWsChar c then
      if acc.isEmpty then wsWordsAux [] cs
      else acc.reverse :: wsWordsAux [] cs
    else wsWordsAux (c :: acc) cs

/-- Proof-side helper: the maximal non-whitespace runs (words) of a string, in
order.  Two statements differ only in whitespace exactly when their words agree. -/
def wsWords (l : List Char) : List (List Char) :=
  wsWordsAux [] l

/-- Proof-side helper: join words with single spaces. -/
def spaceJoin : List (List Char) → List Char
  | [] => []
  | [w] => w
  | w :: ws => w ++ ' ' :: spaceJoin ws

/-- Proof-side helper: does the string start with a whitespace character. -/
def headIsWs : List Char → Bool
  | [] => false
  | c :: _ => isWsChar c

/-- Proof-side helper: the string has no trailing whitespace. -/
def NoTrailWs (l : List Char) : Prop :=
  ∀ c, l.getLast? = some c → isWsChar c = false

/-- Proof-side helper: the string has no leading whitespace. -/
def NoLeadWs (l : List Char) : Prop :=
  ∀ c, l.head? = some c → isWsChar c = false

/-- The middle stage of `normalizeSql`: split into lines, trim each line, re-join. -/
def lineTrim (l : List Char) : List Char :=
  joinLines ((splitLines l).map trimChars)

/-- Character-level body of `normalizeSql` from `frontend/src/utils/sqlUtils.ts`:
trim, trim each line, re-join, collapse whitespace runs to single spaces,
lower-case. -/
def normalizeSqlChars (l : List Char) : List Char :=
  (collapseWs (lineTrim (trimChars l))).map toLowerChar

/-- The `normalizeSql` function of `frontend/src/utils/sqlUtils.ts`, the sole key
used for execution-cache lookups. -/
def normalizeSql (s : String) : String :=
  String.mk (normalizeSqlChars s.data)

/-- Does the second list start with the first (exact characters). -/
def listStartsWith : List Char → List Char → Bool
  | [], _ => true
  | _ :: _, [] => false
  | p :: ps, c :: cs => p == c && listStartsWith ps cs

/-- Does the second list start with the first, comparing case-insensitively (the
needle is given lower-case). -/
def startsWithCi : List Char → List Char → Bool
  | [], _ => true
  | _ :: _, [] => false
  | p :: ps, c :: cs => p == toLowerChar c && startsWithCi ps cs

/-- Scan for the first case-insensitive occurrence of `needle` and return what
follows it, or `none` when absent. -/
def dropAfterFirstCi (needle : List Char) : List Char → Option (List Char)
  | [] => if needle.isEmpty then some [] else none
  | c :: cs =>
    if startsWithCi needle (c :: cs) then some ((c :: cs).drop needle.length)
    else dropAfterFirstCi needle cs

/-- Return the text before the first exact occurrence of `needle`, or `none`
when absent. -/
def takeBeforeFirst (needle : List Char) : List Char → Option (List Char)
  | [] => if needle.isEmpty then some [] else none
  | c :: cs =>
    if listStartsWith needle (c :: cs) then some []
    else (takeBeforeFirst needle cs).map (fun t => c :: t)

/-- The `extractSqlFromMessage` helper of `useSqlConsole.ts`: its regexp matches
the first fenced block opened by three backticks and a case-insensitive sql tag,
greedily skips whitespace, lazily captures up to the next three backticks, and
the hook returns the trimmed capture when the raw capture is non-empty. -/
def extractSqlFromMessage (content : String) : Option String :=
  match dropAfterFirstCi "```sql".data content.data with
  | none => none
  | some rest =>
    match takeBeforeFirst "```".data (rest.dropWhile isWsChar) with
    | none => none
    | some captured =>
      if captured.isEmpty then none
      else some (String.mk (trimChars captured))

/-- The literal union type of `source` fields in the hook: the string values
ai and user. -/
inductive QuerySource where
  | ai
  | user
deriving DecidableEq

/-- The `ChatMessage` shape of `frontend/src/types/chat.ts` (attachments, which
the SQL console never touches, are omitted).  `sender` is the literal string
user or assistant. -/
structure ChatMessage where
  id : String
  sender : String
  content : String
  timestamp : String
deriving DecidableEq

/-- The `PendingQuery` interface of `frontend/src/components/Canvas` types. -/
structure PendingQuery where
  id : String
  query : String
  source : QuerySource
  timestamp : String
deriving DecidableEq

/-- The `connection` member of the result payloads in `chatApi.ts`; the
`DatabaseMode` literal union is carried as a string. -/
structure ResultConnection where
  label : String
  mode : String
deriving DecidableEq

/-- The `SqlQueryResult` tagged union of `chatApi.ts`.  The TS field `rows`
(cells typed unknown, possibly null) is embedded as `rowsData`, cells as
optional strings; the TS discriminant field `type` is the constructor. -/
inductive SqlQueryResult where
  | rows (columns : List String) (rowsData : List (List (Option String)))
      (rowCount : Nat) (hasMore : Bool) (executionTimeMs : Nat)
      (connection : ResultConnection)
  | ack (rowCount : Nat) (message : String) (executionTimeMs : Nat)
      (connection : ResultConnection)
deriving DecidableEq

/-- The `type` discriminant string of a `SqlQueryResult`. -/
def resultKind : SqlQueryResult → String
  | .rows _ _ _ _ _ _ => "rows"
  | .ack _ _ _ _ => "ack"

/-- The `rowCount` field shared by both result variants. -/
def resultRowCount : SqlQueryResult → Nat
  | .rows _ _ n _ _ _ => n
  | .ack n _ _ _ => n

/-- The `SqlQueryHistoryEntry` interface of the Canvas types; the TS field
`type` is embedded as `entryType`.  The hook always populates the optional
`result` and `source` members, so they are carried as required fields. -/
structure SqlQueryHistoryEntry where
  id : String
  query : String
  executedAt : String
  entryType : String
  rowCount : Nat
  result : SqlQueryResult
  source : QuerySource
deriving DecidableEq

/-- The `SqlSchemaColumn` interface of `chatApi.ts`; the TS fields `type` and
`default` (unknown-typed) are embedded as `columnType` and `defaultValue`. -/
structure SqlSchemaColumn where
  name : String
  columnType : String
  nullable : Bool
  defaultValue : Option String
  primaryKey : Option Bool
deriving DecidableEq

/-- The `SqlSchemaForeignKey` interface of `chatApi.ts`. -/
structure SqlSchemaForeignKey where
  column : String
  referencedTable : String
  referencedColumn : String
deriving DecidableEq

/-- The `SqlSchemaTable` interface of `chatApi.ts`. -/
structure SqlSchemaTable where
  name : String
  columns : List SqlSchemaColumn
  foreignKeys : List SqlSchemaForeignKey
deriving DecidableEq

/-- The `SqlSchemaView` interface of `chatApi.ts`. -/
structure SqlSchemaView where
  name : String
  columns : List SqlSchemaColumn
deriving DecidableEq

/-- The `SqlSchemaPayload` interface of `chatApi.ts`. -/
structure SqlSchemaPayload where
  schema : Option String
  tables : List SqlSchemaTable
  views : List SqlSchemaView
  generatedAt : String
  connection : ResultConnection
deriving DecidableEq

/-- The `SqlQuerySuggestion` interface of `chatApi.ts`. -/
structure SqlQuerySuggestion where
  id : String
  title : String
  summary : String
  query : String
  rationale : Option String
  warnings : Option (List String)
deriving DecidableEq

/-- The state of the `useSqlConsole` hook: one field per `useState` cell, plus
the `lastAssistantMessageIdRef` ref, the `canUseDatabaseTools` option, and the
durable auto-execute preference held in local storage under the fixed key. -/
structure ConsoleState where
  isSideWindowOpen : Bool
  sqlEditorValue : String
  sqlSchema : Option SqlSchemaPayload
  isSchemaLoading : Bool
  isExecutingSql : Bool
  sqlConsoleError : Option String
  sqlHistory : List SqlQueryHistoryEntry
  sqlSuggestions : List SqlQuerySuggestion
  sqlSuggestionAnalysis : Option String
  isFetchingSqlSuggestions : Bool
  sqlSuggestionsError : Option String
  pendingSqlQuery : Option PendingQuery
  hiddenAssistantMessage : Option ChatMessage
  latestAutoResult : Option SqlQueryResult
  autoExecuteEnabled : Bool
  executedQueries : List (String × SqlQueryResult)
  lastAssistantMessageId : Option String
  canUseDatabaseTools : Bool
  storedAutoExecute : Bool
deriving DecidableEq

/-- JavaScript `Map.prototype.get` on the execution cache, embedded as an
association list. -/
def mapGet (m : List (String × SqlQueryResult)) (k : String) : Option SqlQueryResult :=
  (m.find? (fun p => p.1 == k)).map (fun p => p.2)

/-- JavaScript `Map.prototype.set`: replace the value at an existing key in
place, else append the new binding. -/
def mapSet : List (String × SqlQueryResult) → String → SqlQueryResult
    → List (String × SqlQueryResult)
  | [], k, v => [(k, v)]
  | (k0, v0) :: rest, k, v =>
    if k0 == k then (k, v) :: rest else (k0, v0) :: mapSet rest k v

/-- The settled outcome of the `runSqlQuery` promise: resolution with a result
or rejection with an error message. -/
inductive ExecResult where
  | ok (result : SqlQueryResult)
  | err (message : String)
deriving DecidableEq

/-- The remote SQL execution collaborator `runSqlQuery`, as an oracle from
statement text and row limit to an outcome. -/
abbrev Backend := String → Nat → ExecResult

/-- The `deriveErrorMessage` helper of `useSqlConsole.ts`: a thrown error whose
message is non-empty wins over the fallback text. -/
def deriveErrorMessage (error : String) (fallback : String) : String :=
  if error.isEmpty then fallback else error

/-- Result of one `executeSqlQuery` call: the new state, the executor calls
made, and the promise outcome. -/
structure ExecStep where
  state : ConsoleState
  calls : List (String × Nat)
  outcome : ExecResult
deriving DecidableEq

/-- Result of an approval-gate action: new state, executor calls, and the
messages passed to `onRevealMessage`. -/
structure GateStep where
  state : ConsoleState
  calls : List (String × Nat)
  revealed : List ChatMessage
deriving DecidableEq

/-- Result of an action that neither reveals messages nor returns a value. -/
structure PlainStep where
  state : ConsoleState
  calls : List (String × Nat)
deriving DecidableEq

/-- Result of `filterConversationMessages`: new state, executor calls, and the
transcript returned for display. -/
structure FilterStep where
  state : ConsoleState
  calls : List (String × Nat)
  display : List ChatMessage
deriving DecidableEq

/-- The `executeSqlQuery` callback of `useSqlConsole.ts`.  On success it
prepends a history entry (list capped at 25), sets `latestAutoResult` for ai
runs, and writes the cache under the normalized statement; on failure it
surfaces the message; `isExecutingSql` is cleared in the finally block. -/
def executeSqlQuery (backend : Backend) (st : ConsoleState) (query : String)
    (limit : Nat) (source : QuerySource) (nowId nowIso : String) : ExecStep :=
  if !st.canUseDatabaseTools then
    let noDbMsg := "Configure a database connection before running SQL queries."
    { state := { st with sqlConsoleError := some noDbMsg },
      calls := [],
      outcome := .err noDbMsg }
  else
    let st1 := { st with
      isSideWindowOpen := true,
      sqlEditorValue := query,
      isExecutingSql := true,
      sqlConsoleError := none,
      latestAutoResult := none }
    match backend query limit with
    | .ok result =>
      let entry : SqlQueryHistoryEntry := {
        id := "sql-" ++ nowId,
        query := query,
        executedAt := nowIso,
        entryType := resultKind result,
        rowCount := resultRowCount result,
        result := result,
        source := source }
      { state := { st1 with
          sqlHistory := (entry :: st1.sqlHistory).take 25,
          latestAutoResult := if source = QuerySource.ai then some result
            else st1.latestAutoResult,
          executedQueries := mapSet st1.executedQueries (normalizeSql query) result,
          isExecutingSql := false },
        calls := [(query, limit)],
        outcome := .ok result }
    | .err e =>
      let msg := deriveErrorMessage e "Unable to execute SQL query."
      { state := { st1 with sqlConsoleError := some msg, isExecutingSql := false },
        calls := [(query, limit)],
        outcome := .err msg }

/-- The `approvePendingQuery` callback: clears the pending record, executes its
stored text, and only on success reveals the captured hidden message. -/
def approvePendingQuery (backend : Backend) (st : ConsoleState)
    (nowId nowIso : String) : GateStep :=
  match st.pendingSqlQuery with
  | none => { state := st, calls := [], revealed := [] }
  | some pq =>
    let hidden := st.hiddenAssistantMessage
    let st1 := { st with pendingSqlQuery := none }
    let ex := executeSqlQuery backend st1 pq.query 200 pq.source nowId nowIso
    match ex.outcome with
    | .ok _ =>
      match hidden with
      | some msg =>
        { state := { ex.state with hiddenAssistantMessage := none },
          calls := ex.calls, revealed := [msg] }
      | none => { state := ex.state, calls := ex.calls, revealed := [] }
    | .err _ => { state := ex.state, calls := ex.calls, revealed := [] }

/-- The `rejectPendingQuery` callback: discards the pending record and the
hidden message. -/
def rejectPendingQuery (st : ConsoleState) : GateStep :=
  { state := { st with pendingSqlQuery := none, hiddenAssistantMessage := none },
    calls := [], revealed := [] }

/-- The `toggleAutoExecute` callback: persists the flipped preference and, when
turning it on with a statement pending, immediately executes that statement and
clears the pending and hidden state. -/
def toggleAutoExecute (backend : Backend) (st : ConsoleState)
    (nowId nowIso : String) : PlainStep :=
  let next := !st.autoExecuteEnabled
  let stored := { st with storedAutoExecute := next }
  match stored.pendingSqlQuery with
  | some pq =>
    if next then
      let ex := executeSqlQuery backend stored pq.query 200 pq.source nowId nowIso
      { state := { ex.state with
          hiddenAssistantMessage := none,
          pendingSqlQuery := none,
          autoExecuteEnabled := next },
        calls := ex.calls }
    else
      { state := { stored with autoExecuteEnabled := next }, calls := [] }
  | none => { state := { stored with autoExecuteEnabled := next }, calls := [] }

/-- The auto-execute drain effect of the hook (`useEffect` on the preference and
the pending record): runs the pending statement when auto-execute is on. -/
def autoExecuteDrain (backend : Backend) (st : ConsoleState)
    (nowId nowIso : String) : PlainStep :=
  match st.pendingSqlQuery with
  | some pq =>
    if st.autoExecuteEnabled then
      let ex := executeSqlQuery backend st pq.query 200 pq.source nowId nowIso
      { state := { ex.state with pendingSqlQuery := none }, calls := ex.calls }
    else { state := st, calls := [] }
  | none => { state := st, calls := [] }

/-- The `viewSqlInCanvas` callback: looks the statement up in the cache under
its normalized text and surfaces the stored result, without executing. -/
def viewSqlInCanvas (st : ConsoleState) (sql : String) : PlainStep :=
  let result := mapGet st.executedQueries (normalizeSql sql)
  { state := { st with
      isSideWindowOpen := true,
      sqlEditorValue := String.mk (trimChars sql.data),
      latestAutoResult := result },
    calls := [] }

/-- The `handleAssistantMessageForSql` callback: on a new assistant message with
an extractable statement, either auto-executes or opens a pending record (this
path does not hide the message). -/
def handleAssistantMessageForSql (backend : Backend) (st : ConsoleState)
    (message : ChatMessage) (nowId nowIso : String) : PlainStep :=
  if message.sender != "assistant" then { state := st, calls := [] }
  else if st.lastAssistantMessageId = some message.id then { state := st, calls := [] }
  else if !st.canUseDatabaseTools then { state := st, calls := [] }
  else
    match extractSqlFromMessage message.content with
    | none => { state := st, calls := [] }
    | some sqlQuery =>
      let st1 := { st with lastAssistantMessageId := some message.id }
      if st1.autoExecuteEnabled then
        let ex := executeSqlQuery backend st1 sqlQuery 200 QuerySource.ai nowId nowIso
        { state := ex.state, calls := ex.calls }
      else
        let pq : PendingQuery :=
          { id := "pending-" ++ nowId, query := sqlQuery,
            source := QuerySource.ai, timestamp := nowIso }
        { state := { st1 with
            sqlEditorValue := sqlQuery,
            pendingSqlQuery := some pq,
            isSideWindowOpen := true },
          calls := [] }

/-- The `filterConversationMessages` callback: inspects the latest message of
the transcript, and for a new assistant message with an extractable statement
either auto-executes (returning the list unchanged) or opens a pending record,
hides the message and returns the list without its last element. -/
def filterConversationMessages (backend : Backend) (st : ConsoleState)
    (messages : List ChatMessage) (nowId nowIso : String) : FilterStep :=
  match messages.getLast? with
  | none =>
    { state := { st with lastAssistantMessageId := none },
      calls := [], display := messages }
  | some latest =>
    if latest.sender != "assistant" || !st.canUseDatabaseTools then
      { state := st, calls := [], display := messages }
    else
      match extractSqlFromMessage latest.content with
      | none => { state := st, calls := [], display := messages }
      | some sqlQuery =>
        if st.lastAssistantMessageId = some latest.id then
          { state := st, calls := [], display := messages }
        else
          let st1 := { st with lastAssistantMessageId := some latest.id }
          if st1.autoExecuteEnabled then
            let ex := executeSqlQuery backend st1 sqlQuery 200 QuerySource.ai nowId nowIso
            { state := ex.state, calls := ex.calls, display := messages }
          else
            let pq : PendingQuery :=
              { id := "pending-" ++ nowId, query := sqlQuery,
                source := QuerySource.ai, timestamp := nowIso }
            { state := { st1 with
                pendingSqlQuery := some pq,
                hiddenAssistantMessage := some latest,
                isSideWindowOpen := true },
              calls := [], display := messages.dropLast }

/-- The `resetSqlConsoleState` callback, run when the database connection is
saved or disconnected.  Note which fields it touches: `executedQueries`,
`autoExecuteEnabled` and the tracking ref are left as they are. -/
def resetSqlConsoleState (st : ConsoleState) (close : Bool) : ConsoleState :=
  { st with
    sqlEditorValue := "",
    sqlSchema := none,
    sqlConsoleError := none,
    sqlHistory := [],
    isSchemaLoading := false,
    isExecutingSql := false,
    sqlSuggestions := [],
    sqlSuggestionAnalysis := none,
    sqlSuggestionsError := none,
    isFetchingSqlSuggestions := false,
    pendingSqlQuery := none,
    hiddenAssistantMessage := none,
    latestAutoResult := none,
    isSideWindowOpen := if close then false else st.isSideWindowOpen }

/-- The `resetAssistantTracking` callback: forget the last-seen message id. -/
def resetAssistantTracking (st : ConsoleState) : ConsoleState :=
  { st with lastAssistantMessageId := none }

/-- The `hasPendingSql` memo of the hook. -/
def hasPendingSql (st : ConsoleState) : Bool :=
  st.pendingSqlQuery.isSome

/-- Fixture: a connection label for concrete results. -/
def baseConnection : ResultConnection := { label := "db", mode := "sqlite" }

/-- Fixture: the hook state directly after initialisation with database tools
available. -/
def baseState : ConsoleState := {
  isSideWindowOpen := false,
  sqlEditorValue := "",
  sqlSchema := none,
  isSchemaLoading := false,
  isExecutingSql := false,
  sqlConsoleError := none,
  sqlHistory := [],
  sqlSuggestions := [],
  sqlSuggestionAnalysis := none,
  isFetchingSqlSuggestions := false,
  sqlSuggestionsError := none,
  pendingSqlQuery := none,
  hiddenAssistantMessage := none,
  latestAutoResult := none,
  autoExecuteEnabled := false,
  executedQueries := [],
  lastAssistantMessageId := none,
  canUseDatabaseTools := true,
  storedAutoExecute := false }

/-- Fixture: an acknowledgement result returned by the backend oracle. -/
def ackResult : SqlQueryResult := SqlQueryResult.ack 0 "OK" 1 baseConnection

/-- Fixture: a backend oracle whose every call succeeds. -/
def okBackend : Backend := fun _ _ => ExecResult.ok ackResult

/-- Fixture: a backend oracle whose every call fails. -/
def errBackend : Backend := fun _ _ => ExecResult.err "relation widgets does not exist"

/-- The `onApprove` handler wired in `Canvas.tsx` (renderEditorSupportingPanel):
it resets the editor to the pending text via `onChangeQuery` and then invokes
the hook's approval, discarding any hand edits the operator made. -/
def canvasApprovePendingQuery (backend : Backend) (st : ConsoleState)
    (nowId nowIso : String) : GateStep :=
  match st.pendingSqlQuery with
  | some pq => approvePendingQuery backend { st with sqlEditorValue := pq.query } nowId nowIso
  | none => { state := st, calls := [], revealed := [] }

/-- Fixture: an assistant message proposing SELECT 1 in a fenced sql block. -/
def msgAssistant1 : ChatMessage :=
  { id := "m1", sender := "assistant",
    content := "Try:\n```sql\nSELECT 1\n```", timestamp := "t1" }

/-- Fixture: a second assistant message proposing SELECT 2. -/
def msgAssistant2 : ChatMessage :=
  { id := "m2", sender := "assistant",
    content := "Or:\n```sql\nSELECT 2\n```", timestamp := "t2" }

/-- Fixture: an operator message with no SQL. -/
def msgUser1 : ChatMessage :=
  { id := "u1", sender := "user", content := "hi", timestamp := "t0" }

/-- Fixture: the pending record created from the first assistant message. -/
def pendingSel1 : PendingQuery :=
  { id := "p1", query := "SELECT 1", source := QuerySource.ai, timestamp := "t1" }

/-- Fixture: a reachable state in which SELECT 1 is pending, its message is
hidden, and its id has been recorded as last seen. -/
def statePending : ConsoleState :=
  { baseState with
    pendingSqlQuery := some pendingSel1,
    hiddenAssistantMessage := some msgAssistant1,
    lastAssistantMessageId := some "m1",
    sqlEditorValue := "SELECT 1",
    isSideWindowOpen := true }

/-- Fixture: a state whose execution cache holds a result for SELECT * FROM t. -/
def stateCached : ConsoleState :=
  { baseState with
    executedQueries := [(normalizeSql "SELECT * FROM t", ackResult)] }

theorem toLowerChar_eq_or (c : Char) :
    toLowerChar c = c ∨
      toLowerChar c ∈ ['a','b','c','d','e','f','g','h','i','j','k','l','m',
        'n','o','p','q','r','s','t','u','v','w','x','y','z'] := by
  unfold toLowerChar
  split
  all_goals first
    | (right; decide)
    | (left; rfl)

theorem toLowerChar_of_lower {d : Char}
    (h : d ∈ ['a','b','c','d','e','f','g','h','i','j','k','l','m',
        'n','o','p','q','r','s','t','u','v','w','x','y','z']) :
    toLowerChar d = d := by
  fin_cases h <;> rfl

theorem toLowerChar_idem (c : Char) : toLowerChar (toLowerChar c) = toLowerChar c := by
  rcases toLowerChar_eq_or c with h | h
  · rw [h, h]
  · exact toLowerChar_of_lower h

theorem isWsChar_toLowerChar (c : Char) : isWsChar (toLowerChar c) = isWsChar c := by
  unfold toLowerChar
  split
  all_goals rfl

theorem toLowerChar_space : toLowerChar ' ' = ' ' := rfl

theorem spaceJoin_cons {w : List Char} {ws : List (List Char)} (h : ws ≠ []) :
    spaceJoin (w :: ws) = w ++ ' ' :: spaceJoin ws := by
  cases ws with
  | nil => exact absurd rfl h
  | cons a as => rfl

theorem wsWordsAux_ne_nil_of_acc {m : List Char} :
    ∀ {acc : List Char}, acc ≠ [] → wsWordsAux acc m ≠ [] := by
  induction m with
  | nil =>
    intro acc hacc
    unfold wsWordsAux
    simp [List.isEmpty_iff, hacc]
  | cons d ds ih =>
    intro acc hacc
    unfold wsWordsAux
    by_cases hd : isWsChar d
    · simp only [hd, if_true, List.isEmpty_iff, hacc, if_false]
      exact List.cons_ne_nil _ _
    · simp only [hd, if_false]
      exact ih (List.cons_ne_nil _ _)

theorem wsWordsAux_ne_nil {m : List Char} {c : Char} (hc : c ∈ m)
    (hws : isWsChar c = false) : ∀ acc, wsWordsAux acc m ≠ [] := by
  induction m with
  | nil => cases hc
  | cons d ds ih =>
    intro acc
    unfold wsWordsAux
    by_cases hd : isWsChar d
    · have hcd : c ∈ ds := by
        rcases List.mem_cons.mp hc with h | h
        · subst h; rw [hd] at hws; cases hws
        · exact h
      simp only [hd, if_true]
      by_cases hacc : acc.isEmpty
      · simp only [hacc, if_true]
        exact ih hcd []
      · simp only [hacc, if_false]
        exact List.cons_ne_nil _ _
    · simp only [hd, if_false]
      exact wsWordsAux_ne_nil_of_acc (List.cons_ne_nil _ _)

theorem NoTrailWs_of_cons {c : Char} {m : List Char} (hm : m ≠ [])
    (h : NoTrailWs (c :: m)) : NoTrailWs m := by
  intro e he
  apply h
  cases m with
  | nil => exact absurd rfl hm
  | cons d ds => rw [List.getLast?_cons_cons]; exact he

theorem wsWords_ne_nil {m : List Char} (hm : m ≠ []) (h : NoTrailWs m) :
    wsWords m ≠ [] := by
  cases hlast : m.getLast? with
  | none => exact absurd (by simpa using hlast) hm
  | some c =>
    exact wsWordsAux_ne_nil (List.mem_of_getLast?_eq_some hlast) (h c hlast) []

theorem collapse_spec :
    ∀ (n : Nat) (m : List Char), m.length ≤ n → NoTrailWs m →
      (collapseWs m = (if headIsWs m then [' '] else []) ++ spaceJoin (wsWords m)) ∧
      (∀ acc : List Char, acc ≠ [] →
        spaceJoin (wsWordsAux acc m) = acc.reverse ++ collapseWs m) := by
  intro n
  induction n with
  | zero =>
    intro m hm _
    have hnil : m = [] := List.length_eq_zero.mp (Nat.le_zero.mp hm)
    subst hnil
    constructor
    · simp [collapseWs, headIsWs, wsWords, wsWordsAux, spaceJoin]
    · intro acc hacc
      simp [wsWordsAux, List.isEmpty_iff, hacc, spaceJoin, collapseWs]
  | succ n ih =>
    intro m hm hnt
    match m with
    | [] =>
      constructor
      · simp [collapseWs, headIsWs, wsWords, wsWordsAux, spaceJoin]
      · intro acc hacc
        simp [wsWordsAux, List.isEmpty_iff, hacc, spaceJoin, collapseWs]
    | [c] =>
      have hc : isWsChar c = false := hnt c rfl
      constructor
      · simp [collapseWs, headIsWs, wsWords, wsWordsAux, spaceJoin, hc]
      · intro acc hacc
        simp [wsWordsAux, hc, spaceJoin, collapseWs]
    | c :: d :: cs =>
      have hm' : (d :: cs).length ≤ n := by
        simp only [List.length_cons] at hm ⊢
        omega
      have hnt' : NoTrailWs (d :: cs) :=
        NoTrailWs_of_cons (List.cons_ne_nil _ _) hnt
      obtain ⟨ihA, ihB⟩ := ih (d :: cs) hm' hnt'
      have hne : wsWords (d :: cs) ≠ [] :=
        wsWords_ne_nil (List.cons_ne_nil _ _) hnt'
      by_cases hc : isWsChar c
      · have hwords : wsWords (c :: d :: cs) = wsWords (d :: cs) := by
          simp [wsWords, wsWordsAux, hc]
        by_cases hd : isWsChar d
        · constructor
          · rw [show collapseWs (c :: d :: cs) = collapseWs (d :: cs) by
              simp [collapseWs, hc, hd]]
            rw [ihA, hwords]
            simp [headIsWs, hc, hd]
          · intro acc hacc
            rw [show wsWordsAux acc (c :: d :: cs)
                  = acc.reverse :: wsWords (d :: cs) by
              simp [wsWordsAux, hc, List.isEmpty_iff, hacc, wsWords]]
            rw [spaceJoin_cons hne]
            rw [show collapseWs (c :: d :: cs) = collapseWs (d :: cs) by
              simp [collapseWs, hc, hd]]
            rw [ihA]
            simp [headIsWs, hd]
        · constructor
          · rw [show collapseWs (c :: d :: cs) = ' ' :: collapseWs (d :: cs) by
              simp [collapseWs, hc, hd]]
            rw [ihA, hwords]
            simp [headIsWs, hc, hd]
          · intro acc hacc
            rw [show wsWordsAux acc (c :: d :: cs)
                  = acc.reverse :: wsWords (d :: cs) by
              simp [wsWordsAux, hc, List.isEmpty_iff, hacc, wsWords]]
            rw [spaceJoin_cons hne]
            rw [show collapseWs (c :: d :: cs) = ' ' :: collapseWs (d :: cs) by
              simp [collapseWs, hc, hd]]
            rw [ihA]
            simp [headIsWs, hd]
      · have hcol : collapseWs (c :: d :: cs) = c :: collapseWs (d :: cs) := by
          simp [collapseWs, hc]
        constructor
        · have : wsWords (c :: d :: cs) = wsWordsAux [c] (d :: cs) := by
            simp [wsWords, wsWordsAux, hc]
          rw [this, ihB [c] (List.cons_ne_nil _ _), hcol]
          simp [headIsWs, hc]
        · intro acc hacc
          rw [show wsWordsAux acc (c :: d :: cs)
                = wsWordsAux (c :: acc) (d :: cs) by
            simp [wsWordsAux, hc]]
          rw [ihB (c :: acc) (List.cons_ne_nil _ _), hcol]
          simp

theorem wsWordsAux_append_ws {c : Char} (hc : isWsChar c = true) :
    ∀ (a : List Char) (x : List Char) (acc : List Char),
      wsWordsAux acc (a ++ c :: x) = wsWordsAux acc a ++ wsWords x := by
  intro a
  induction a with
  | nil =>
    intro x acc
    by_cases hacc : acc.isEmpty
    · simp [wsWordsAux, hc, hacc, wsWords]
    · simp [wsWordsAux, hc, hacc, wsWords]
  | cons d a' ih =>
    intro x acc
    by_cases hd : isWsChar d
    · by_cases hacc : acc.isEmpty
      · simp [wsWordsAux, hd, hacc, ih x []]
      · simp [wsWordsAux, hd, hacc, ih x []]
    · simp only [List.cons_append, wsWordsAux, hd, if_false]
      exact ih x (d :: acc)

theorem wsWords_dropWhile (l : List Char) :
    wsWords (l.dropWhile isWsChar) = wsWords l := by
  induction l with
  | nil => rfl
  | cons c cs ih =>
    by_cases hc : isWsChar c
    · rw [List.dropWhile_cons_of_pos hc, ih]
      simp [wsWords, wsWordsAux, hc]
    · rw [List.dropWhile_cons_of_neg (by simp [hc])]

theorem wsWordsAux_all_ws {w : List Char} (hw : ∀ e ∈ w, isWsChar e = true) :
    ∀ acc, wsWordsAux acc w = if acc.isEmpty then [] else [acc.reverse] := by
  induction w with
  | nil => intro acc; rfl
  | cons d w' ih =>
    intro acc
    have hd : isWsChar d = true := hw d (by simp)
    have hw' : ∀ e ∈ w', isWsChar e = true := fun e he => hw e (by simp [he])
    by_cases hacc : acc.isEmpty
    · simp only [wsWordsAux, hd, if_true, hacc]
      exact ih hw' []
    · simp only [wsWordsAux, hd, if_true, hacc, if_false]
      rw [ih hw' []]
      rfl

theorem wsWordsAux_append_all_ws {w : List Char} (hw : ∀ e ∈ w, isWsChar e = true) :
    ∀ (l : List Char) (acc : List Char),
      wsWordsAux acc (l ++ w) = wsWordsAux acc l := by
  intro l
  induction l with
  | nil =>
    intro acc
    rw [List.nil_append, wsWordsAux_all_ws hw]
    rfl
  | cons d l' ih =>
    intro acc
    by_cases hd : isWsChar d
    · by_cases hacc : acc.isEmpty
      · simp [wsWordsAux, hd, hacc, ih []]
      · simp [wsWordsAux, hd, hacc, ih []]
    · simp only [List.cons_append, wsWordsAux, hd, if_false]
      exact ih (d :: acc)

theorem dropTrailWs_decomp (l : List Char) :
    ∃ w, l = dropTrailWs l ++ w ∧ ∀ e ∈ w, isWsChar e = true := by
  refine ⟨(l.reverse.takeWhile isWsChar).reverse, ?_, ?_⟩
  · apply Eq.symm
    rw [show dropTrailWs l = (l.reverse.dropWhile isWsChar).reverse from rfl,
      ← List.reverse_append, List.takeWhile_append_dropWhile, List.reverse_reverse]
  · intro e he
    rw [List.mem_reverse] at he
    exact List.mem_takeWhile_imp he

theorem wsWords_trimChars (l : List Char) :
    wsWords (trimChars l) = wsWords l := by
  unfold trimChars
  obtain ⟨w, hu, hw⟩ := dropTrailWs_decomp (l.dropWhile isWsChar)
  have h1 : wsWords (dropTrailWs (l.dropWhile isWsChar) ++ w)
      = wsWords (dropTrailWs (l.dropWhile isWsChar)) :=
    wsWordsAux_append_all_ws hw _ []
  rw [← h1, ← hu, wsWords_dropWhile]

theorem splitLines_ne_nil (m : List Char) : splitLines m ≠ [] := by
  cases m with
  | nil => simp [splitLines]
  | cons c cs =>
    unfold splitLines
    split
    · simp
    · split <;> simp

theorem joinLines_cons {a : List Char} {L : List (List Char)} (h : L ≠ []) :
    joinLines (a :: L) = a ++ '\n' :: joinLines L := by
  cases L with
  | nil => exact absurd rfl h
  | cons b bs => rfl

theorem joinLines_splitLines (m : List Char) : joinLines (splitLines m) = m := by
  induction m with
  | nil => rfl
  | cons c cs ih =>
    by_cases hc : c = '\n'
    · subst hc
      rw [show splitLines ('\n' :: cs) = [] :: splitLines cs by simp [splitLines]]
      rw [joinLines_cons (splitLines_ne_nil cs), ih]
      rfl
    · cases hsplit : splitLines cs with
      | nil => exact absurd hsplit (splitLines_ne_nil cs)
      | cons l ls =>
        have hstep : splitLines (c :: cs) = (c :: l) :: ls := by
          unfold splitLines
          rw [if_neg (by simpa using hc), hsplit]
        rw [hstep]
        rw [hsplit, ] at ih
        cases ls with
        | nil =>
          have : l = cs := by simpa [joinLines] using ih
          simp [joinLines, this]
        | cons m' ms =>
          rw [joinLines_cons (List.cons_ne_nil _ _)]
          rw [joinLines_cons (List.cons_ne_nil _ _)] at ih
          simp only [List.cons_append]
          rw [ih]

theorem wsWords_joinLines_trim :
    ∀ L : List (List Char),
      wsWords (joinLines (L.map trimChars)) = wsWords (joinLines L) := by
  intro L
  induction L with
  | nil => rfl
  | cons l L' ih =>
    cases L' with
    | nil => simpa [joinLines] using wsWords_trimChars l
    | cons m ls =>
      rw [List.map_cons, joinLines_cons (by simp), joinLines_cons (List.cons_ne_nil _ _)]
      unfold wsWords
      rw [wsWordsAux_append_ws (by rfl) (trimChars l)]
      rw [wsWordsAux_append_ws (by rfl) l]
      rw [show wsWordsAux [] (trimChars l) = wsWords (trimChars l) from rfl]
      rw [show wsWordsAux [] l = wsWords l from rfl]
      rw [wsWords_trimChars l]
      rw [show wsWords (joinLines (List.map trimChars (m :: ls)))
            = wsWords (joinLines (m :: ls)) from ih]

theorem noLeadWs_dropWhile (l : List Char) : NoLeadWs (l.dropWhile isWsChar) := by
  induction l with
  | nil => intro c hc; cases hc
  | cons d ds ih =>
    by_cases hd : isWsChar d
    · rw [List.dropWhile_cons_of_pos hd]; exact ih
    · rw [List.dropWhile_cons_of_neg (by simp [hd])]
      intro c hc
      cases hc
      simpa using hd

theorem noTrailWs_dropTrailWs (l : List Char) : NoTrailWs (dropTrailWs l) := by
  intro c hc
  unfold dropTrailWs at hc
  rw [List.getLast?_reverse] at hc
  exact noLeadWs_dropWhile l.reverse c hc

theorem noLeadWs_dropTrailWs {l : List Char} (h : NoLeadWs l) :
    NoLeadWs (dropTrailWs l) := by
  obtain ⟨w, hdec, _⟩ := dropTrailWs_decomp l
  intro c hc
  apply h
  rw [hdec, List.head?_append, hc]
  rfl

theorem noLeadWs_trimChars (l : List Char) : NoLeadWs (trimChars l) :=
  noLeadWs_dropTrailWs (noLeadWs_dropWhile l)

theorem noTrailWs_trimChars (l : List Char) : NoTrailWs (trimChars l) :=
  noTrailWs_dropTrailWs _

theorem trimChars_cons_head {c : Char} (hc : isWsChar c = false) (x : List Char) :
    ∃ t, trimChars (c :: x) = c :: t := by
  unfold trimChars
  rw [List.dropWhile_cons_of_neg (by simp [hc])]
  obtain ⟨w, hdec, hw⟩ := dropTrailWs_decomp (c :: x)
  cases hdt : (dropTrailWs (c :: x)).head? with
  | none =>
    rw [List.head?_eq_none_iff] at hdt
    rw [hdt, List.nil_append] at hdec
    exact absurd (hw c (by rw [← hdec]; exact List.mem_cons_self c x))
      (by simp [hc])
  | some e =>
    have hhead : (c :: x).head? = some e := by
      rw [hdec, List.head?_append, hdt]; rfl
    have hce : e = c := by simpa using hhead.symm
    subst hce
    exact List.head?_eq_some_iff.mp hdt

theorem trimChars_concat_last {c : Char} (hc : isWsChar c = false) (x : List Char) :
    ∃ t, trimChars (x ++ [c]) = t ++ [c] := by
  unfold trimChars
  rw [List.dropWhile_append]
  by_cases hx : (x.dropWhile isWsChar).isEmpty = true
  · rw [if_pos hx, List.dropWhile_cons_of_neg (by simp [hc])]
    refine ⟨[], ?_⟩
    simp [dropTrailWs, hc]
  · rw [if_neg hx]
    refine ⟨x.dropWhile isWsChar, ?_⟩
    simp [dropTrailWs, hc]

theorem splitLines_getLast :
    ∀ {m : List Char} {c : Char}, m.getLast? = some c → c ≠ '\n' →
      ∃ us u, splitLines m = us ++ [u] ∧ u.getLast? = some c := by
  intro m
  induction m with
  | nil => intro c hm _; cases hm
  | cons d m' ih =>
    intro c hm hc
    cases m' with
    | nil =>
      have hdc : d = c := by simpa using hm
      subst hdc
      refine ⟨[], [d], ?_, rfl⟩
      simp [splitLines, hc]
    | cons e m'' =>
      rw [List.getLast?_cons_cons] at hm
      obtain ⟨us, u, hsplit, hu⟩ := ih hm hc
      by_cases hd : d = '\n'
      · subst hd
        refine ⟨[] :: us, u, ?_, hu⟩
        rw [show splitLines ('\n' :: e :: m'') = [] :: splitLines (e :: m'') by
          simp [splitLines]]
        rw [hsplit]
        rfl
      · have hstep : splitLines (d :: e :: m'')
            = match splitLines (e :: m'') with
              | [] => [[d]]
              | l :: ls => (d :: l) :: ls := by
          conv_lhs => unfold splitLines
          rw [if_neg (by simpa using hd)]
        cases us with
        | nil =>
          have hune : u ≠ [] := by
            intro h0; rw [h0] at hu; cases hu
          refine ⟨[], d :: u, ?_, ?_⟩
          · rw [hstep, hsplit]
            rfl
          · cases u with
            | nil => exact absurd rfl hune
            | cons a as => rw [List.getLast?_cons_cons]; exact hu
        | cons a us' =>
          refine ⟨(d :: a) :: us', u, ?_, hu⟩
          rw [hstep, hsplit]
          rfl

theorem joinLines_append_getLast {u : List Char} (hu : u ≠ []) :
    ∀ L : List (List Char), (joinLines (L ++ [u])).getLast? = u.getLast? := by
  intro L
  induction L with
  | nil => rfl
  | cons a L' ih =>
    rw [List.cons_append, joinLines_cons (by simp)]
    rw [List.getLast?_append]
    cases hJcons : joinLines (L' ++ [u]) with
    | nil =>
      rw [hJcons] at ih
      have : u.getLast?.isSome := List.getLast?_isSome.mpr hu
      rw [← ih] at this
      cases this
    | cons b bs =>
      rw [hJcons] at ih
      rw [List.getLast?_cons_cons, ih]
      have : u.getLast?.isSome := List.getLast?_isSome.mpr hu
      cases hcu : u.getLast? with
      | none => rw [hcu] at this; cases this
      | some z => rfl

theorem splitLines_cons_ne {d : Char} (hd : ¬ d = '\n') (cs : List Char) :
    splitLines (d :: cs)
      = match splitLines cs with
        | [] => [[d]]
        | l :: ls => (d :: l) :: ls := by
  conv_lhs => unfold splitLines
  rw [if_neg (by simpa using hd)]

theorem wsWords_lineTrim (m : List Char) : wsWords (lineTrim m) = wsWords m := by
  unfold lineTrim
  rw [wsWords_joinLines_trim, joinLines_splitLines]

theorem noLeadWs_lineTrim {m : List Char} (h : NoLeadWs m) :
    NoLeadWs (lineTrim m) := by
  cases m with
  | nil =>
    intro c hc
    simp [lineTrim, splitLines, joinLines, trimChars, dropTrailWs] at hc
  | cons d m' =>
    have hd : isWsChar d = false := h d rfl
    have hdn : ¬ d = '\n' := by
      intro h0; subst h0; simp [isWsChar] at hd
    cases hsp : splitLines m' with
    | nil => exact absurd hsp (splitLines_ne_nil m')
    | cons l ls =>
      have hstep : splitLines (d :: m') = (d :: l) :: ls := by
        rw [splitLines_cons_ne hdn, hsp]
      obtain ⟨t, ht⟩ := trimChars_cons_head hd l
      intro c hc
      rw [lineTrim, hstep, List.map_cons, ht] at hc
      cases hls : ls.map trimChars with
      | nil =>
        rw [hls] at hc
        cases hc
        exact hd
      | cons b bs =>
        rw [hls, joinLines_cons (List.cons_ne_nil _ _)] at hc
        simp only [List.cons_append, List.head?_cons] at hc
        cases hc
        exact hd

theorem getLast?_decomp {u : List Char} {c : Char} (hu : u.getLast? = some c) :
    ∃ t, u = t ++ [c] := by
  have hrev : u.reverse.head? = some c := by
    rw [List.head?_reverse]; exact hu
  obtain ⟨ys, hys⟩ := List.head?_eq_some_iff.mp hrev
  refine ⟨ys.reverse, ?_⟩
  rw [← u.reverse_reverse, hys]
  simp

theorem noTrailWs_lineTrim {m : List Char} (h : NoTrailWs m) :
    NoTrailWs (lineTrim m) := by
  cases hlast : m.getLast? with
  | none =>
    have hm : m = [] := by simpa using hlast
    subst hm
    intro c hc
    simp [lineTrim, splitLines, joinLines, trimChars, dropTrailWs] at hc
  | some c =>
    have hcw : isWsChar c = false := h c hlast
    have hcn : c ≠ '\n' := by
      intro h0; subst h0; simp [isWsChar] at hcw
    obtain ⟨us, u, hsplit, hu⟩ := splitLines_getLast hlast hcn
    obtain ⟨t0, ht0⟩ := getLast?_decomp hu
    obtain ⟨t, ht⟩ := trimChars_concat_last hcw t0
    intro e he
    rw [lineTrim, hsplit, List.map_append, List.map_cons, List.map_nil] at he
    rw [joinLines_append_getLast (by rw [ht0, ht]; simp) (us.map trimChars)] at he
    rw [ht0, ht, List.getLast?_concat] at he
    cases he
    exact hcw

theorem map_lower_spaceJoin :
    ∀ W : List (List Char),
      (spaceJoin W).map toLowerChar = spaceJoin (W.map (List.map toLowerChar)) := by
  intro W
  induction W with
  | nil => rfl
  | cons w ws ih =>
    cases ws with
    | nil => rfl
    | cons v vs =>
      have h1 : spaceJoin (w :: v :: vs) = w ++ ' ' :: spaceJoin (v :: vs) := rfl
      have h2 : spaceJoin (List.map (List.map toLowerChar) (w :: v :: vs))
          = List.map toLowerChar w
            ++ ' ' :: spaceJoin (List.map (List.map toLowerChar) (v :: vs)) := rfl
      rw [h1, h2, List.map_append, List.map_cons, ih]
      rfl

theorem headIsWs_false {m : List Char} (h : NoLeadWs m) : headIsWs m = false := by
  cases m with
  | nil => rfl
  | cons c cs => exact h c rfl

theorem normalize_master (l : List Char) :
    normalizeSqlChars l = spaceJoin ((wsWords l).map (List.map toLowerChar)) := by
  unfold normalizeSqlChars
  have hlead : NoLeadWs (lineTrim (trimChars l)) :=
    noLeadWs_lineTrim (noLeadWs_trimChars l)
  have htrail : NoTrailWs (lineTrim (trimChars l)) :=
    noTrailWs_lineTrim (noTrailWs_trimChars l)
  obtain ⟨hA, _⟩ := collapse_spec (lineTrim (trimChars l)).length
    (lineTrim (trimChars l)) le_rfl htrail
  rw [hA, headIsWs_false hlead]
  rw [wsWords_lineTrim, wsWords_trimChars]
  simp only [if_neg Bool.false_ne_true, List.nil_append]
  exact map_lower_spaceJoin (wsWords l)

theorem wsWordsAux_words :
    ∀ (m : List Char) (acc : List Char), (∀ c ∈ acc, isWsChar c = false) →
      ∀ w ∈ wsWordsAux acc m, w ≠ [] ∧ ∀ c ∈ w, isWsChar c = false := by
  intro m
  induction m with
  | nil =>
    intro acc hacc w hw
    unfold wsWordsAux at hw
    by_cases he : acc.isEmpty
    · rw [if_pos he] at hw; cases hw
    · rw [if_neg he] at hw
      rcases List.mem_singleton.mp hw with rfl
      refine ⟨by simpa [List.isEmpty_iff] using he, ?_⟩
      intro c hc
      exact hacc c (List.mem_reverse.mp hc)
  | cons d ds ih =>
    intro acc hacc w hw
    unfold wsWordsAux at hw
    by_cases hd : isWsChar d
    · rw [if_pos hd] at hw
      by_cases he : acc.isEmpty
      · rw [if_pos he] at hw
        exact ih [] (by intro c hc; cases hc) w hw
      · rw [if_neg he] at hw
        rcases List.mem_cons.mp hw with rfl | hw'
        · refine ⟨by simpa [List.isEmpty_iff] using he, ?_⟩
          intro c hc
          exact hacc c (List.mem_reverse.mp hc)
        · exact ih [] (by intro c hc; cases hc) w hw'
    · rw [if_neg hd] at hw
      refine ih (d :: acc) ?_ w hw
      intro c hc
      rcases List.mem_cons.mp hc with rfl | hc'
      · simpa using hd
      · exact hacc c hc'

theorem wsWordsAux_no_ws {w : List Char} (hw : ∀ c ∈ w, isWsChar c = false) :
    ∀ acc, acc ≠ [] ∨ w ≠ [] → wsWordsAux acc w = [acc.reverse ++ w] := by
  induction w with
  | nil =>
    intro acc hor
    rcases hor with h | h
    · unfold wsWordsAux
      rw [if_neg (by simpa [List.isEmpty_iff] using h)]
      rw [List.append_nil]
    · exact absurd rfl h
  | cons c w' ih =>
    intro acc _
    have hc : isWsChar c = false := hw c (by simp)
    unfold wsWordsAux
    rw [if_neg (by simp [hc])]
    rw [ih (fun e he => hw e (by simp [he])) (c :: acc) (Or.inl (List.cons_ne_nil _ _))]
    simp

theorem wsWords_spaceJoin :
    ∀ W : List (List Char),
      (∀ w ∈ W, w ≠ [] ∧ ∀ c ∈ w, isWsChar c = false) →
      wsWords (spaceJoin W) = W := by
  intro W
  induction W with
  | nil => intro _; rfl
  | cons w ws ih =>
    intro hW
    obtain ⟨hwne, hwc⟩ := hW w (by simp)
    cases ws with
    | nil =>
      show wsWords (spaceJoin [w]) = [w]
      unfold wsWords
      rw [show spaceJoin [w] = w from rfl]
      rw [wsWordsAux_no_ws hwc [] (Or.inr hwne)]
      rfl
    | cons v vs =>
      rw [spaceJoin_cons (List.cons_ne_nil _ _)]
      unfold wsWords
      rw [wsWordsAux_append_ws (by decide) w (spaceJoin (v :: vs)) []]
      rw [show wsWordsAux [] w = wsWords w from rfl]
      unfold wsWords
      rw [wsWordsAux_no_ws hwc [] (Or.inr hwne)]
      rw [show wsWordsAux [] (spaceJoin (v :: vs)) = wsWords (spaceJoin (v :: vs)) from rfl]
      rw [ih (fun u hu => hW u (by simp [hu]))]
      rfl

theorem map_toLowerChar_idem (w : List Char) :
    (w.map toLowerChar).map toLowerChar = w.map toLowerChar := by
  induction w with
  | nil => rfl
  | cons c cs ih => simp [toLowerChar_idem c, ih]

theorem lowered_words_are_words {l : List Char} :
    ∀ w ∈ (wsWords l).map (List.map toLowerChar),
      w ≠ [] ∧ ∀ c ∈ w, isWsChar c = false := by
  intro w hw
  obtain ⟨v, hv, rfl⟩ := List.mem_map.mp hw
  obtain ⟨hvne, _⟩ := wsWordsAux_words l [] (by intro c hc; cases hc) v hv
  constructor
  · simpa using hvne
  · intro c hc
    obtain ⟨e, he, rfl⟩ := List.mem_map.mp hc
    rw [isWsChar_toLowerChar]
    exact (wsWordsAux_words l [] (by intro c hc; cases hc) v hv).2 e he

theorem normalizeSqlChars_idem (l : List Char) :
    normalizeSqlChars (normalizeSqlChars l) = normalizeSqlChars l := by
  conv_lhs => rw [normalize_master (normalizeSqlChars l)]
  conv_lhs => rw [normalize_master l]
  rw [wsWords_spaceJoin _ lowered_words_are_words]
  rw [normalize_master l]
  congr 1
  rw [List.map_map]
  apply List.map_congr_left
  intro v _
  exact map_toLowerChar_idem v

theorem normalizeSqlChars_words_eq {l1 l2 : List Char}
    (h : (wsWords l1).map (List.map toLowerChar)
        = (wsWords l2).map (List.map toLowerChar)) :
    normalizeSqlChars l1 = normalizeSqlChars l2 := by
  rw [normalize_master l1, normalize_master l2, h]

/-- Claim C1, counterexample: with SELECT 1 pending and the editor hand-edited
to SELECT 1 WHERE id = 7, approval (through the Canvas handler, which first
resets the editor to the pending text) calls the executor with the stored
pending text; the operator's edited text is never sent.  This refutes the part
of the claim asserting the call carries the text as hand-edited in the interim. -/
theorem c1_counterexample :
    statePending.pendingSqlQuery = some pendingSel1
    ∧ (canvasApprovePendingQuery okBackend
        { statePending with sqlEditorValue := "SELECT 1 WHERE id = 7" } "9" "t9").calls
        = [("SELECT 1", 200)]
    ∧ ("SELECT 1 WHERE id = 7", 200) ∉ (canvasApprovePendingQuery okBackend
        { statePending with sqlEditorValue := "SELECT 1 WHERE id = 7" } "9" "t9").calls := by
  decide

/-- Claim C1 (amended): approving a PendingStatement causes exactly one call to
the execution collaborator carrying the pending record's stored text (operator
edits to the editor are not incorporated), and on success exactly one
HistoryEntry with origin ai is recorded (newest first, list capped at 25)
together with a cache entry under the normalized text, and the hidden message,
if any, is revealed exactly once. -/
theorem c1_theorem (backend : Backend) (st : ConsoleState) (pq : PendingQuery)
    (r : SqlQueryResult) (nowId nowIso : String)
    (hpq : st.pendingSqlQuery = some pq)
    (hsrc : pq.source = QuerySource.ai)
    (hdb : st.canUseDatabaseTools = true)
    (hbk : backend pq.query 200 = ExecResult.ok r) :
    (approvePendingQuery backend st nowId nowIso).calls = [(pq.query, 200)]
    ∧ (approvePendingQuery backend st nowId nowIso).state.pendingSqlQuery = none
    ∧ (approvePendingQuery backend st nowId nowIso).state.sqlHistory
        = ({ id := "sql-" ++ nowId, query := pq.query, executedAt := nowIso,
             entryType := resultKind r, rowCount := resultRowCount r,
             result := r, source := QuerySource.ai } :: st.sqlHistory).take 25
    ∧ (approvePendingQuery backend st nowId nowIso).state.executedQueries
        = mapSet st.executedQueries (normalizeSql pq.query) r
    ∧ (approvePendingQuery backend st nowId nowIso).state.hiddenAssistantMessage = none
    ∧ (approvePendingQuery backend st nowId nowIso).revealed
        = st.hiddenAssistantMessage.toList := by
  cases hh : st.hiddenAssistantMessage with
  | none =>
    simp only [approvePendingQuery, hpq, executeSqlQuery, hdb, hh, hbk, hsrc]
    simp
  | some msg =>
    simp only [approvePendingQuery, hpq, executeSqlQuery, hdb, hh, hbk, hsrc]
    simp

/-- Witness for c1_theorem at the concrete pending fixture. -/
theorem c1_witness :
    statePending.pendingSqlQuery = some pendingSel1
    ∧ (approvePendingQuery okBackend statePending "9" "t9").calls
        = [(pendingSel1.query, 200)]
    ∧ (approvePendingQuery okBackend statePending "9" "t9").state.pendingSqlQuery
        = none :=
  ⟨by decide,
    (c1_theorem okBackend statePending pendingSel1 ackResult "9" "t9"
      (by decide) (by decide) (by decide) (by decide)).1,
    (c1_theorem okBackend statePending pendingSel1 ackResult "9" "t9"
      (by decide) (by decide) (by decide) (by decide)).2.1⟩

/-- Claim C2: rejecting a PendingStatement performs zero calls to the execution
collaborator, clears the pending statement, and discards the hidden assistant
message without ever revealing it. -/
theorem c2_theorem (st : ConsoleState) (pq : PendingQuery)
    (hpq : st.pendingSqlQuery = some pq) :
    (rejectPendingQuery st).calls = []
    ∧ (rejectPendingQuery st).revealed = []
    ∧ (rejectPendingQuery st).state.pendingSqlQuery = none
    ∧ (rejectPendingQuery st).state.hiddenAssistantMessage = none
    ∧ (rejectPendingQuery st).state
        = { st with pendingSqlQuery := none, hiddenAssistantMessage := none } :=
  ⟨rfl, rfl, rfl, rfl, rfl⟩

/-- Witness for c2_theorem at the concrete pending fixture. -/
theorem c2_witness :
    statePending.pendingSqlQuery = some pendingSel1
    ∧ (rejectPendingQuery statePending).calls = []
    ∧ (rejectPendingQuery statePending).revealed = [] :=
  ⟨by decide,
    (c2_theorem statePending pendingSel1 (by decide)).1,
    (c2_theorem statePending pendingSel1 (by decide)).2.1⟩

/-- Claim C3: toggling AutoExecutePreference from false to true while a
PendingStatement exists triggers exactly one execution of that statement's text
and clears the pending state; the subsequent auto-execute drain effect finds
nothing left to run, so no separate approval action is required. -/
theorem c3_theorem (backend : Backend) (st : ConsoleState) (pq : PendingQuery)
    (nowId nowIso : String)
    (hauto : st.autoExecuteEnabled = false)
    (hpq : st.pendingSqlQuery = some pq)
    (hdb : st.canUseDatabaseTools = true) :
    (toggleAutoExecute backend st nowId nowIso).calls = [(pq.query, 200)]
    ∧ (toggleAutoExecute backend st nowId nowIso).state.pendingSqlQuery = none
    ∧ (toggleAutoExecute backend st nowId nowIso).state.autoExecuteEnabled = true
    ∧ (autoExecuteDrain backend (toggleAutoExecute backend st nowId nowIso).state
        nowId nowIso).calls = []
    ∧ (autoExecuteDrain backend (toggleAutoExecute backend st nowId nowIso).state
        nowId nowIso).state = (toggleAutoExecute backend st nowId nowIso).state := by
  have hstep : toggleAutoExecute backend st nowId nowIso
      = (let ex := executeSqlQuery backend { st with storedAutoExecute := true }
          pq.query 200 pq.source nowId nowIso
        { state := { ex.state with
            hiddenAssistantMessage := none,
            pendingSqlQuery := none,
            autoExecuteEnabled := true },
          calls := ex.calls }) := by
    simp only [toggleAutoExecute, hauto, hpq, Bool.not_false, if_true]
  cases hbk : backend pq.query 200 with
  | ok r =>
    rw [hstep]
    simp only [executeSqlQuery, hdb, hbk]
    simp [autoExecuteDrain]
  | err e =>
    rw [hstep]
    simp only [executeSqlQuery, hdb, hbk]
    simp [autoExecuteDrain]

/-- Witness for c3_theorem at the concrete pending fixture. -/
theorem c3_witness :
    statePending.autoExecuteEnabled = false
    ∧ statePending.pendingSqlQuery = some pendingSel1
    ∧ (toggleAutoExecute okBackend statePending "5" "t5").calls
        = [(pendingSel1.query, 200)]
    ∧ (toggleAutoExecute okBackend statePending "5" "t5").state.pendingSqlQuery
        = none :=
  ⟨by decide, by decide,
    (c3_theorem okBackend statePending pendingSel1 "5" "t5"
      (by decide) (by decide) (by decide)).1,
    (c3_theorem okBackend statePending pendingSel1 "5" "t5"
      (by decide) (by decide) (by decide)).2.1⟩

/-- Claim C4, counterexample: with SELECT 1 pending, a new assistant message
carrying SELECT 2 replaces the pending statement: afterwards the pending
statement is the new candidate, not the original one, so the newcomer is not
dropped. -/
theorem c4_counterexample :
    statePending.pendingSqlQuery.map PendingQuery.query = some "SELECT 1"
    ∧ (filterConversationMessages okBackend statePending
        [msgUser1, msgAssistant2] "7" "t7").state.pendingSqlQuery.map PendingQuery.query
        = some "SELECT 2"
    ∧ (filterConversationMessages okBackend statePending
        [msgUser1, msgAssistant2] "7" "t7").state.pendingSqlQuery.map PendingQuery.query
        ≠ some "SELECT 1" := by
  decide

/-- Claim C4 (amended): a new extractable assistant message arriving while a
statement is pending replaces the PendingStatement with the new candidate,
without any executor call; at most one pending record ever exists, but it is
the original statement that is silently discarded, not the newcomer. -/
theorem c4_theorem (backend : Backend) (st : ConsoleState) (pq0 : PendingQuery)
    (msgs : List ChatMessage) (latest : ChatMessage) (sqlQuery : String)
    (nowId nowIso : String)
    (hpq : st.pendingSqlQuery = some pq0)
    (hlast : msgs.getLast? = some latest)
    (hsender : latest.sender = "assistant")
    (hdb : st.canUseDatabaseTools = true)
    (hauto : st.autoExecuteEnabled = false)
    (hex : extractSqlFromMessage latest.content = some sqlQuery)
    (hnew : st.lastAssistantMessageId ≠ some latest.id) :
    (filterConversationMessages backend st msgs nowId nowIso).state.pendingSqlQuery
      = some { id := "pending-" ++ nowId, query := sqlQuery,
               source := QuerySource.ai, timestamp := nowIso }
    ∧ (filterConversationMessages backend st msgs nowId nowIso).calls = [] := by
  simp only [filterConversationMessages, hlast, hsender, hdb, hex, hauto, hnew]
  simp

/-- Witness for c4_theorem at the concrete two-message transcript. -/
theorem c4_witness :
    statePending.pendingSqlQuery = some pendingSel1
    ∧ (filterConversationMessages okBackend statePending
        [msgUser1, msgAssistant2] "7" "t7").state.pendingSqlQuery
        = some { id := "pending-7", query := "SELECT 2",
                 source := QuerySource.ai, timestamp := "t7" } :=
  ⟨by decide,
    by
      have h := (c4_theorem okBackend statePending pendingSel1
        [msgUser1, msgAssistant2] msgAssistant2 "SELECT 2" "7" "t7"
        (by decide) (by decide) (by decide) (by decide) (by decide)
        (by decide) (by decide)).1
      exact h⟩

/-- Claim C5, counterexample: when execution of an approved statement fails, the
hidden transcript message is not revealed: the reveal callback receives nothing
and the message stays hidden, because the reveal sits after the await inside
the try block.  Pending is cleared and the error is surfaced. -/
theorem c5_counterexample :
    statePending.hiddenAssistantMessage = some msgAssistant1
    ∧ (approvePendingQuery errBackend statePending "9" "t9").revealed = []
    ∧ (approvePendingQuery errBackend statePending "9" "t9").state.hiddenAssistantMessage
        = some msgAssistant1
    ∧ (approvePendingQuery errBackend statePending "9" "t9").state.pendingSqlQuery = none
    ∧ (approvePendingQuery errBackend statePending "9" "t9").state.sqlConsoleError
        = some "relation widgets does not exist" := by
  decide

/-- Claim C5 (amended): when execution of an approved statement fails, exactly
one executor call was made, the PendingStatement is cleared and the error is
surfaced, but the hidden transcript message is left hidden: it is not revealed
and no reveal callback fires. -/
theorem c5_theorem (backend : Backend) (st : ConsoleState) (pq : PendingQuery)
    (e : String) (nowId nowIso : String)
    (hpq : st.pendingSqlQuery = some pq)
    (hdb : st.canUseDatabaseTools = true)
    (hbk : backend pq.query 200 = ExecResult.err e) :
    (approvePendingQuery backend st nowId nowIso).calls = [(pq.query, 200)]
    ∧ (approvePendingQuery backend st nowId nowIso).state.pendingSqlQuery = none
    ∧ (approvePendingQuery backend st nowId nowIso).state.sqlConsoleError
        = some (deriveErrorMessage e "Unable to execute SQL query.")
    ∧ (approvePendingQuery backend st nowId nowIso).revealed = []
    ∧ (approvePendingQuery backend st nowId nowIso).state.hiddenAssistantMessage
        = st.hiddenAssistantMessage := by
  simp only [approvePendingQuery, hpq, executeSqlQuery, hdb, hbk]
  simp

/-- Witness for c5_theorem at the concrete pending fixture with the failing
backend. -/
theorem c5_witness :
    statePending.pendingSqlQuery = some pendingSel1
    ∧ (approvePendingQuery errBackend statePending "9" "t9").calls
        = [(pendingSel1.query, 200)]
    ∧ (approvePendingQuery errBackend statePending "9" "t9").revealed = [] :=
  ⟨by decide,
    (c5_theorem errBackend statePending pendingSel1
      "relation widgets does not exist" "9" "t9"
      (by decide) (by decide) (by decide)).1,
    (c5_theorem errBackend statePending pendingSel1
      "relation widgets does not exist" "9" "t9"
      (by decide) (by decide) (by decide)).2.2.2.1⟩

/-- Claim C6 (code bug in the source): resetSqlConsoleState, the clear operation
run on a database connection change, resets the history list but leaves
executedQueries untouched, so every previously cached lookup still hits after
the reset; concretely, the cached result for SELECT * FROM t still resolves
after a reset, contradicting the required invalidation. -/
theorem c6_theorem (st : ConsoleState) (close : Bool) :
    (resetSqlConsoleState st close).sqlHistory = []
    ∧ (resetSqlConsoleState st close).executedQueries = st.executedQueries
    ∧ (∀ s : String, mapGet (resetSqlConsoleState st close).executedQueries s
        = mapGet st.executedQueries s)
    ∧ mapGet (resetSqlConsoleState stateCached false).executedQueries
        (normalizeSql "select * from t") = some ackResult :=
  ⟨rfl, rfl, fun _ => rfl, by decide⟩

/-- Claim C7: re-selecting a previously executed statement, even with different
surrounding whitespace or letter case, surfaces the cached QueryResult stored
under the normalized key and performs zero calls to the execution collaborator. -/
theorem c7_theorem (st : ConsoleState) (s s2 : String) (r : SqlQueryResult)
    (hcache : mapGet st.executedQueries (normalizeSql s) = some r)
    (hnorm : normalizeSql s2 = normalizeSql s) :
    (viewSqlInCanvas st s2).calls = []
    ∧ (viewSqlInCanvas st s2).state.latestAutoResult = some r
    ∧ (viewSqlInCanvas st s2).state
        = { st with
            isSideWindowOpen := true,
            sqlEditorValue := String.mk (trimChars s2.data),
            latestAutoResult := some r } := by
  unfold viewSqlInCanvas
  rw [hnorm, hcache]
  exact ⟨rfl, rfl, rfl⟩

/-- Witness for c7_theorem: a re-formatted, re-cased rendering of the cached
statement hits the cache. -/
theorem c7_witness :
    mapGet stateCached.executedQueries (normalizeSql "SELECT * FROM t")
      = some ackResult
    ∧ normalizeSql "  select *   FROM T \n" = normalizeSql "SELECT * FROM t"
    ∧ (viewSqlInCanvas stateCached "  select *   FROM T \n").calls = []
    ∧ (viewSqlInCanvas stateCached "  select *   FROM T \n").state.latestAutoResult
        = some ackResult :=
  ⟨by decide, by decide,
    (c7_theorem stateCached "SELECT * FROM t" "  select *   FROM T \n" ackResult
      (by decide) (by decide)).1,
    (c7_theorem stateCached "SELECT * FROM t" "  select *   FROM T \n" ackResult
      (by decide) (by decide)).2.1⟩

/-- Claim C8: normalizeSql is idempotent on every string; any two statements
whose case-folded whitespace-separated token sequences agree (differing only in
indentation, trailing blank lines, internal whitespace runs, or letter case)
normalize to the same key; and the spec's concrete example holds. -/
theorem c8_theorem :
    (∀ s : String, normalizeSql (normalizeSql s) = normalizeSql s)
    ∧ (∀ s1 s2 : String,
        (wsWords s1.data).map (List.map toLowerChar)
          = (wsWords s2.data).map (List.map toLowerChar) →
        normalizeSql s1 = normalizeSql s2)
    ∧ normalizeSql "SELECT * FROM t;\n  " = normalizeSql "select * from t;" := by
  refine ⟨?_, ?_, by decide⟩
  · intro s
    unfold normalizeSql
    exact congrArg String.mk
      (by
        rw [show (String.mk (normalizeSqlChars s.data)).data
              = normalizeSqlChars s.data from rfl]
        exact normalizeSqlChars_idem s.data)
  · intro s1 s2 h
    exact congrArg String.mk (normalizeSqlChars_words_eq h)

/-- Witness for the conditional clause of c8_theorem at two concrete
renderings of one statement. -/
theorem c8_witness :
    (wsWords "SELECT  *\n  FROM t".data).map (List.map toLowerChar)
      = (wsWords "select * from T".data).map (List.map toLowerChar)
    ∧ normalizeSql "SELECT  *\n  FROM t" = normalizeSql "select * from T" :=
  ⟨by decide, c8_theorem.2.1 "SELECT  *\n  FROM t" "select * from T" (by decide)⟩

/-- Claim C9, counterexample: applying the transcript filter a second time to
the same input list returns the full list, including the previously suppressed
assistant message, and thus not the same filtered result as the first
application. -/
theorem c9_counterexample :
    (filterConversationMessages okBackend baseState [msgAssistant1] "1" "t1").display
      = []
    ∧ (filterConversationMessages okBackend
        (filterConversationMessages okBackend baseState [msgAssistant1] "1" "t1").state
        [msgAssistant1] "2" "t2").display = [msgAssistant1]
    ∧ (filterConversationMessages okBackend
        (filterConversationMessages okBackend baseState [msgAssistant1] "1" "t1").state
        [msgAssistant1] "2" "t2").display
      ≠ (filterConversationMessages okBackend baseState [msgAssistant1] "1" "t1").display := by
  decide

/-- Claim C9 (amended): once the last-seen message identity equals the latest
message's id, re-applying the filter to the same list leaves the state
unchanged, performs no executor call and creates no new PendingStatement, but
returns the input list unfiltered rather than the first application's
shortened output. -/
theorem c9_theorem (backend : Backend) (st : ConsoleState)
    (msgs : List ChatMessage) (latest : ChatMessage) (nowId nowIso : String)
    (hlast : msgs.getLast? = some latest)
    (hseen : st.lastAssistantMessageId = some latest.id) :
    filterConversationMessages backend st msgs nowId nowIso
      = { state := st, calls := [], display := msgs } := by
  simp only [filterConversationMessages, hlast]
  by_cases h1 : (latest.sender != "assistant" || !st.canUseDatabaseTools) = true
  · simp [h1]
  · simp only [h1, if_false]
    cases hex : extractSqlFromMessage latest.content with
    | none => simp
    | some q => simp [hseen]

/-- Witness for c9_theorem at the state produced by a first application. -/
theorem c9_witness :
    ((filterConversationMessages okBackend baseState [msgAssistant1] "1" "t1").state).lastAssistantMessageId
      = some msgAssistant1.id
    ∧ filterConversationMessages okBackend
        (filterConversationMessages okBackend baseState [msgAssistant1] "1" "t1").state
        [msgAssistant1] "2" "t2"
      = { state := (filterConversationMessages okBackend baseState
            [msgAssistant1] "1" "t1").state,
          calls := [], display := [msgAssistant1] } :=
  ⟨by decide,
    c9_theorem okBackend
      (filterConversationMessages okBackend baseState [msgAssistant1] "1" "t1").state
      [msgAssistant1] msgAssistant1 "2" "t2" (by decide) (by decide)⟩

/-- Claim C10: every failing execution request, whether from a missing database
connection or a backend error, leaves the history list and the normalized-key
execution cache unchanged, ends with isExecutingSql false, and rejects with an
error message. -/
theorem c10_theorem (backend : Backend) (st : ConsoleState) (q : String)
    (limit : Nat) (src : QuerySource) (nowId nowIso : String)
    (hexec : st.isExecutingSql = false)
    (hfail : st.canUseDatabaseTools = false ∨ ∃ e, backend q limit = ExecResult.err e) :
    (executeSqlQuery backend st q limit src nowId nowIso).state.sqlHistory
      = st.sqlHistory
    ∧ (executeSqlQuery backend st q limit src nowId nowIso).state.executedQueries
      = st.executedQueries
    ∧ (executeSqlQuery backend st q limit src nowId nowIso).state.isExecutingSql
      = false
    ∧ ∃ msg, (executeSqlQuery backend st q limit src nowId nowIso).outcome
      = ExecResult.err msg := by
  by_cases hdb : st.canUseDatabaseTools
  · rcases hfail with hdb' | ⟨e, hbk⟩
    · rw [hdb'] at hdb; cases hdb
    · simp only [executeSqlQuery, hdb, hbk]
      simp
  · simp only [executeSqlQuery, Bool.not_eq_true] at hdb ⊢
    simp [hdb, hexec]

/-- Witness for c10_theorem with the failing backend. -/
theorem c10_witness :
    baseState.isExecutingSql = false
    ∧ (executeSqlQuery errBackend baseState "SELECT 1" 200 QuerySource.user
        "3" "t3").state.sqlHistory = baseState.sqlHistory
    ∧ (executeSqlQuery errBackend baseState "SELECT 1" 200 QuerySource.user
        "3" "t3").state.executedQueries = baseState.executedQueries :=
  ⟨by decide,
    (c10_theorem errBackend baseState "SELECT 1" 200 QuerySource.user "3" "t3"
      (by decide) (Or.inr ⟨"relation widgets does not exist", by decide⟩)).1,
    (c10_theorem errBackend baseState "SELECT 1" 200 QuerySource.user "3" "t3"
      (by decide) (Or.inr ⟨"relation widgets does not exist", by decide⟩)).2.1⟩

end Axon
